import Mathlib

/-!
# Verification of the dataconfigs schema-merge and attribute-injection engine

A shallow embedding of the `dataconfigs` engine (the `configurable`
decorator, the merge engine, the attribute injector and the
`show_config_params` introspector) together with the demo schema of
`src/notebooks/01-demo.ipynb`.

The engine's own Python source is not part of the repository snapshot; the
repository carries its README and the demo notebook, whose recorded cell
outputs pin the observable behaviour (which parameters
`show_config_params` lists, in which order, and the exact attribute values
of a constructed instance).  The definitions below are therefore modelled
from the specification, except where the notebook's recorded outputs
contradict it, in which case the notebook — being code of the repository —
is the authority.
-/

namespace Dataconfigs

/-! ## Python floats

Python floats are IEEE-754 binary64 numbers.  We model a (normal, finite)
binary64 number by its sign, its 53-bit normalized mantissa and its
exponent, and model Python's float operations by rounding the exact
rational result to 53 significant bits, round-half-to-even.  Overflow and
subnormals do not occur for the values in this development.
-/

/-- A finite binary64 number in normalized form: the value is
`(-1)^(if neg then 1 else 0) * mantissa * 2^(exponent - 52)` with
`2^52 ≤ mantissa < 2^53`, or zero, represented as `⟨false, 0, 0⟩`.
The representation of a normal number is unique, so structural equality
coincides with IEEE equality. -/
structure Float64 where
  neg : Bool
  mantissa : ℕ
  exponent : ℤ
deriving DecidableEq, Repr

/-- Number of bits of `n` (`0` for `n = 0`), by fuel-based structural
recursion so that the kernel can evaluate it. -/
def bitlenAux : ℕ → ℕ → ℕ
  | 0, _ => 0
  | fuel + 1, n => if n = 0 then 0 else bitlenAux fuel (n / 2) + 1

/-- Number of bits of `n`: the least `k` with `n < 2^k`. -/
def bitlen (n : ℕ) : ℕ := bitlenAux n n

/-- Whether `2^e ≤ n / d` as exact rationals, for positive naturals. -/
def lePow2 (d n : ℕ) (e : ℤ) : Bool :=
  if 0 ≤ e then d * 2 ^ e.toNat ≤ n else d ≤ n * 2 ^ (-e).toNat

/-- The greatest `e : ℤ` with `2^e ≤ n / d`, for positive `n, d`.  The
bit-length estimate is off by at most one towards the top, so a single
correction step suffices. -/
def floorLog2Div (n d : ℕ) : ℤ :=
  let e0 : ℤ := (bitlen n : ℤ) - (bitlen d : ℤ)
  if ¬ lePow2 d n e0 then e0 - 1
  else if lePow2 d n (e0 + 1) then e0 + 1
  else e0

/-- Round `(n / d) * 2^(52 - e)` to the nearest integer, ties to even,
for positive naturals `n, d`. -/
def roundMantissa (n d : ℕ) (e : ℤ) : ℕ :=
  let p : ℕ × ℕ :=
    if 0 ≤ 52 - e then (n * 2 ^ (52 - e).toNat, d) else (n, d * 2 ^ (e - 52).toNat)
  let q := p.1 / p.2
  let r := p.1 % p.2
  if 2 * r < p.2 then q
  else if p.2 < 2 * r then q + 1
  else if q % 2 = 0 then q else q + 1

/-- Python's true division `a / b` on integers: the exact quotient
correctly rounded to binary64 (round to nearest, ties to even).  The
division-by-zero case is irrelevant here (Python raises); we return zero. -/
def f64Div (a b : ℤ) : Float64 :=
  if a = 0 ∨ b = 0 then ⟨false, 0, 0⟩
  else
    let n := a.natAbs
    let d := b.natAbs
    let neg := decide (a < 0) != decide (b < 0)
    let e := floorLog2Div n d
    let m := roundMantissa n d e
    if m = 2 ^ 53 then ⟨neg, 2 ^ 52, e + 1⟩ else ⟨neg, m, e⟩

/-- The binary64 number denoted by the decimal literal
`mant * 10^(-digits)`: decimal-to-double conversion is correctly rounded,
i.e. exactly `f64Div` of the numerator by the power of ten. -/
def f64OfDecimal (mant : ℤ) (digits : ℕ) : Float64 :=
  f64Div mant (10 ^ digits)

/-- A runtime value: the subset of Python values the demo schema uses. -/
inductive Value where
  | vInt : ℤ → Value
  | vStr : String → Value
  | vFloat : Float64 → Value
  | vBool : Bool → Value
deriving DecidableEq, Repr

/-! ## Parameter specifications (spec §3) -/

/-- Storage class of a parameter: `stored` becomes a visible instance
attribute, `transient` (an `InitVar` in the dataclass source) is consumed
at construction and never set as an attribute. -/
inductive Storage where
  | stored
  | transient
deriving DecidableEq, Repr

/-- The `defaultKind` of a parameter: `required` (no default, must be
supplied), `literal v` (a fixed default), or `derived` (populated by the
owning schema's derivation hook, the dataclass `__post_init__`). -/
inductive DefaultKind where
  | required
  | literal : Value → DefaultKind
  | derived
deriving DecidableEq, Repr

/-- One declared or derived parameter (spec §3, ParameterSpec).  For a
`derived` parameter, `sources` lists the names of the resolved parameters
its value is computed from (the `sourceParams` of the spec's
`Derived(hook, sourceParams)`, taken from the hook's declared
dependencies); it is empty for the other kinds. -/
structure ParameterSpec where
  name : String
  declaredType : String
  defaultKind : DefaultKind
  storage : Storage
  description : String
  origin : String
  sources : List String := []
deriving DecidableEq, Repr

/-- A derivation hook (the dataclass `__post_init__`): its declared
source-parameter dependencies, and the computation producing the derived
fields' name/value pairs from the resolved values so far.  A source that
is still unresolved when the hook is invoked is a construction-time
`SchemaConflict` (spec §4.3 step 4, §7). -/
structure Hook where
  sources : List String
  compute : (String → Option Value) → List (String × Value)

/-- A schema descriptor: a named, ordered set of `ParameterSpec`s (in
declaration order, as written in the dataclass source) plus a derivation
hook (spec §3, SchemaDescriptor). -/
structure SchemaDescriptor where
  name : String
  params : List ParameterSpec
  hook : Hook

/-- Errors of the engine (spec §7): a missing required parameter at
construction time, or a schema conflict — at decoration time for
storage-changing redeclarations, at construction time for unresolved
derivation dependencies — each carrying the offending name. -/
inductive ConfigError where
  | missingRequiredParameter : String → ConfigError
  | schemaConflict : String → ConfigError
deriving DecidableEq, Repr

/-! ## Schema Extractor (spec §4.1)

Modelled from the spec: the Schema Extractor itself is not under `src/`.
The spec says extraction preserves declaration order, but the notebook's
recorded `show_config_params` output (cell "Instance", and the
multiple-config cell) lists `param2` before the earlier-declared `param1`:
the extractor emits the stored (regular dataclass) fields first, in
declaration order, followed by the transient (`InitVar`) fields, in
declaration order, matching the recorded outputs. -/
def extractParams (s : SchemaDescriptor) : List ParameterSpec :=
  s.params.filter (fun p => p.storage = Storage.stored) ++
    s.params.filter (fun p => p.storage = Storage.transient)

/-- The parameter names of a list of specs, in order. -/
def namesOf (l : List ParameterSpec) : List String := l.map (·.name)

/-! ## Merge Engine (spec §4.2)

Modelled from the spec: the Merge Engine is not under `src/`.  Specs are
processed descriptor by descriptor, in extraction order within each; the
first occurrence of a name fixes its position, and a compatible later
occurrence replaces the spec's `defaultKind` (with its derivation
sources), `description` and `origin` in place.  A later occurrence that
changes `storage`, or that turns a stored field into a derived one whose
sources are not all in the merged set yet, is a fatal `SchemaConflict`
raised at merge (decoration) time: `mergeIntoChecked` is the full rule,
and `mergeInto` is the total override action it applies in the
non-conflicting cases (and the value every successful checked merge
equals). -/

/-- Merge one later spec into the accumulated registry, assuming no
conflict: override in place when the name was already seen, append
otherwise. -/
def mergeInto (acc : List ParameterSpec) (q : ParameterSpec) : List ParameterSpec :=
  if acc.any (fun p => p.name = q.name) then
    acc.map (fun p =>
      if p.name = q.name then
        { p with defaultKind := q.defaultKind, description := q.description,
                 origin := q.origin, sources := q.sources }
      else p)
  else acc ++ [q]

/-- The registry entry for a name: the first spec carrying it. -/
def findSpec (reg : List ParameterSpec) (n : String) : Option ParameterSpec :=
  reg.find? (fun p => p.name = n)

/-- Merge one later spec into the accumulated registry, with the fatal
conflicts of spec §4.2: a redeclaration that changes `storage`, or that
turns a stored field into a derived one with sources that do not all
exist in the merged set yet, is a `SchemaConflict`. -/
def mergeIntoChecked (acc : List ParameterSpec) (q : ParameterSpec) :
    Except ConfigError (List ParameterSpec) :=
  match findSpec acc q.name with
  | none => .ok (acc ++ [q])
  | some p =>
    if ¬ q.storage = p.storage then
      .error (.schemaConflict q.name)
    else if p.storage = Storage.stored ∧ q.defaultKind = DefaultKind.derived
        ∧ ¬ p.defaultKind = DefaultKind.derived
        ∧ ¬ (∀ s ∈ q.sources, s ∈ namesOf acc) then
      .error (.schemaConflict q.name)
    else .ok (mergeInto acc q)

/-- Merge a list of later specs into the accumulated registry, stopping
at the first `SchemaConflict`. -/
def mergeSpecsChecked :
    List ParameterSpec → List ParameterSpec → Except ConfigError (List ParameterSpec)
  | acc, [] => .ok acc
  | acc, q :: rest =>
    match mergeIntoChecked acc q with
    | .error e => .error e
    | .ok acc' => mergeSpecsChecked acc' rest

/-- Merge an ordered sequence of schema descriptors into the accumulated
registry, stopping at the first `SchemaConflict`. -/
def mergeSchemasChecked :
    List ParameterSpec → List SchemaDescriptor → Except ConfigError (List ParameterSpec)
  | acc, [] => .ok acc
  | acc, s :: rest =>
    match mergeSpecsChecked acc (extractParams s) with
    | .error e => .error e
    | .ok acc' => mergeSchemasChecked acc' rest

/-- The merged registry of an ordered sequence of schema descriptors, or
the `SchemaConflict` that aborts the merge at decoration time. -/
def mergeRegistryChecked (schemas : List SchemaDescriptor) :
    Except ConfigError (List ParameterSpec) :=
  mergeSchemasChecked [] schemas

/-- The registry a conflict-free merge produces (the value of every
successful `mergeRegistryChecked`, see `mergeRegistryChecked_ok`). -/
def mergeRegistry (schemas : List SchemaDescriptor) : List ParameterSpec :=
  schemas.foldl (fun acc s => (extractParams s).foldl mergeInto acc) []

/-! ## Decoration: the `configurable` entry point (spec §4.2, §6)

Modelled from the spec: the decorator itself is not under `src/`.  A
target class may obtain its schemas in three ways (demo notebook): by
syntactically extending config dataclasses, by an explicit `config=`
decorator argument, or by nested inner config classes.  The decorator
merges the schemas into a class-level registry; the bound class does not
inherit from the configs (their bases are dropped) and is not a dataclass
(the notebook asserts `not is_dataclass(MyConfigurable)`). -/

/-- A target class as written in the source, before decoration. -/
structure TargetClass where
  name : String
  /-- Config dataclasses appearing syntactically as base classes. -/
  configBases : List SchemaDescriptor
  /-- Ordinary (non-config) base classes, kept by the decorator. -/
  otherBases : List String
  /-- Config dataclasses declared as nested inner classes. -/
  innerConfigs : List SchemaDescriptor
  /-- Whether the target's own definition carries the `dataclass`
  decorator (the demo targets are plain classes, so `false`). -/
  isDataclass : Bool

/-- A class after decoration by `configurable`. -/
structure BoundClass where
  name : String
  isDataclass : Bool
  /-- Remaining base classes: the config bases are dropped, so the bound
  class has no inheritance relationship to any schema. -/
  bases : List String
  /-- The class-level registry, merged once at decoration time. -/
  registry : List ParameterSpec
  /-- Derivation hooks of the merged schemas, in merge order. -/
  hooks : List Hook

/-- The schema descriptors a decoration uses: the explicit `config=`
argument when given, otherwise the discovered ones (syntactic config
bases, then inner configs). -/
def schemasOf (t : TargetClass) (explicit : List SchemaDescriptor) : List SchemaDescriptor :=
  if explicit.isEmpty then t.configBases ++ t.innerConfigs else explicit

/-- The bound class a successful decoration yields: the schemas merged
into the class-level registry, the config bases dropped, the class left a
non-dataclass.  The fallible decoration entry point is `bind`; every
successful `bind` returns exactly this class (see `bind_ok_eq`). -/
def configurable (t : TargetClass) (explicit : List SchemaDescriptor) : BoundClass :=
  let schemas := schemasOf t explicit
  { name := t.name
    isDataclass := t.isDataclass
    bases := t.otherBases
    registry := mergeRegistry schemas
    hooks := schemas.map (·.hook) }

/-- The decoration entry point (spec §6): merge the schemas with the
conflict checks of §4.2, failing synchronously with `SchemaConflict` at
decoration time, before any instance exists. -/
def bind (t : TargetClass) (explicit : List SchemaDescriptor) :
    Except ConfigError BoundClass :=
  match mergeRegistryChecked (schemasOf t explicit) with
  | .error e => .error e
  | .ok reg =>
    .ok { name := t.name
          isDataclass := t.isDataclass
          bases := t.otherBases
          registry := reg
          hooks := (schemasOf t explicit).map (·.hook) }

/-! ## Attribute Injector (spec §4.3)

Modelled from the spec: the injector is not under `src/`.  Construction
partitions the keyword arguments into registry-recognized and
pass-through ones, resolves required/literal/supplied values, runs the
derivation hooks, sets the stored parameters as attributes, and only then
invokes the target's own initializer with the pass-through arguments. -/

/-- Keyword arguments of a construction call, in call order. -/
abbrev Kwargs := List (String × Value)

/-- Look up a name in an association list of values. -/
def lookupKw (kwargs : Kwargs) (n : String) : Option Value :=
  (kwargs.find? (fun kv => kv.1 = n)).map (·.2)

/-- Step 1 (pass-through side): the keyword arguments whose names match no
`ParameterSpec` of the registry, forwarded unchanged to the target's own
initializer. -/
def passThrough (reg : List ParameterSpec) (kwargs : Kwargs) : Kwargs :=
  kwargs.filter (fun kv => ¬ reg.any (fun p => p.name = kv.1))

/-- Steps 2–3: resolve each parameter in registry order from the supplied
keyword arguments and the literal defaults; an unsupplied `required`
parameter aborts with `MissingRequiredParameter`, an unsupplied `derived`
parameter is deferred to the hooks. -/
def resolveBase (reg : List ParameterSpec) (kwargs : Kwargs) :
    Except ConfigError (List (String × Value)) :=
  match reg with
  | [] => .ok []
  | p :: rest =>
    match lookupKw kwargs p.name with
    | some v => (resolveBase rest kwargs).map (fun m => (p.name, v) :: m)
    | none =>
      match p.defaultKind with
      | .required => .error (.missingRequiredParameter p.name)
      | .literal v => (resolveBase rest kwargs).map (fun m => (p.name, v) :: m)
      | .derived => resolveBase rest kwargs

/-- Step 4: run the derivation hooks in merge order; each hook sees the
values resolved so far and appends the derived fields it produces.  A
hook one of whose declared source parameters is still unresolved at its
invocation — a circular or unresolved derivation dependency — is a fatal
`SchemaConflict` naming that source (spec §4.3 step 4, §7), raised before
any attribute is set. -/
def applyHooks :
    List Hook → List (String × Value) → Except ConfigError (List (String × Value))
  | [], resolved => .ok resolved
  | h :: rest, resolved =>
    match h.sources.find? (fun s => (lookupKw resolved s).isNone) with
    | some s => .error (.schemaConflict s)
    | none => applyHooks rest (resolved ++ h.compute (lookupKw resolved))

/-- Collect one optional value per registry entry, in registry order, as
an association list keyed by the parameter names. -/
def specMap (f : ParameterSpec → Option Value) (reg : List ParameterSpec) :
    List (String × Value) :=
  reg.filterMap (fun p => (f p).map (fun v => (p.name, v)))

/-- Step 5: the stored parameters' resolved values, in registry order —
the attributes set on the instance before its own initializer runs.
Transient parameters are never included. -/
def storedAttrs (reg : List ParameterSpec) (resolved : List (String × Value)) :
    List (String × Value) :=
  specMap (fun p =>
    if p.storage = Storage.stored then lookupKw resolved p.name else none) reg

/-- Step 7: the instance snapshot — the full resolved mapping (stored and
transient alike), in registry order. -/
def snapshotOf (reg : List ParameterSpec) (resolved : List (String × Value)) :
    List (String × Value) :=
  specMap (fun p => lookupKw resolved p.name) reg

/-- A target's own initializer, modelled as a function from the attributes
already set on `self` and the forwarded keyword arguments to the final
attributes of the instance. -/
abbrev Initializer := List (String × Value) → Kwargs → List (String × Value)

/-- A constructed instance.  `attrsBeforeInit` is the attribute state at
the moment the target's own initializer starts running; `attrs` is the
final state it leaves behind. -/
structure Instance where
  attrsBeforeInit : List (String × Value)
  forwarded : Kwargs
  attrs : List (String × Value)
  snapshot : List (String × Value)
deriving DecidableEq, Repr

/-- One instantiation of a bound class (spec §4.3): resolve, run hooks,
set attributes, then invoke the target's own initializer with the
pass-through arguments.  A failure — `MissingRequiredParameter` from
resolution, or `SchemaConflict` from an unresolved derivation
dependency — aborts before any attribute is set, so no
partially-constructed instance is observable. -/
def construct (bc : BoundClass) (init : Initializer) (kwargs : Kwargs) :
    Except ConfigError Instance :=
  match resolveBase bc.registry kwargs with
  | .error e => .error e
  | .ok base =>
    match applyHooks bc.hooks base with
    | .error e => .error e
    | .ok resolved =>
      let pre := storedAttrs bc.registry resolved
      let fwd := passThrough bc.registry kwargs
      .ok { attrsBeforeInit := pre
            forwarded := fwd
            attrs := init pre fwd
            snapshot := snapshotOf bc.registry resolved }

/-! ## Introspector (spec §4.4)

Modelled from the spec and the notebook's recorded outputs: the
introspector is not under `src/`.  The notebook's recorded output lists
the suppliable (non-derived) parameters — the transient `param1`
included — and omits the derived `param3`; the spec's words "only ever
lists Stored names" contradict the recorded output, and the notebook is
the authority. -/

/-- One line of `show_config_params` output, structurally: name, declared
type, description and the value shown (`none` is the placeholder shown
for a `required` parameter at class level). -/
structure ShownParam where
  name : String
  declaredType : String
  description : String
  value : Option Value
deriving DecidableEq, Repr

/-- One output line per non-derived registry entry, in registry order,
with the value produced by `value`. -/
def showParams (reg : List ParameterSpec) (value : ParameterSpec → Option Value) :
    List ShownParam :=
  reg.filterMap (fun p =>
    if p.defaultKind = DefaultKind.derived then none
    else some { name := p.name, declaredType := p.declaredType,
                description := p.description, value := value p })

/-- The `show_config_params` output on a type: the non-derived registry
entries in registry order, with the class-level literal defaults
(placeholder for `required`). -/
def showConfigParamsType (bc : BoundClass) : List ShownParam :=
  showParams bc.registry (fun p =>
    match p.defaultKind with
    | .literal v => some v
    | _ => none)

/-- The `show_config_params` output on an instance: the same non-derived
registry entries in the same order, with the instance snapshot's resolved
values. -/
def showConfigParamsInst (bc : BoundClass) (inst : Instance) : List ShownParam :=
  showParams bc.registry (fun p => lookupKw inst.snapshot p.name)

/-! ## The demo schema and target (src/notebooks/01-demo.ipynb)

The `MyConfig` dataclass declares `param1 : InitVar[int]` (required,
transient), `param2 : str = "param2"` (stored literal) and
`param3 : float = field(init=False)` (stored, populated by
`__post_init__` as `param1 / 3`). -/

/-- The `__post_init__` hook of `MyConfig`: `self.param3 = param1 / 3`,
depending on the single source parameter `param1`. -/
def myConfigHook : Hook :=
  { sources := ["param1"]
    compute := fun env =>
      match env "param1" with
      | some (Value.vInt n) => [("param3", Value.vFloat (f64Div n 3))]
      | _ => [] }

/-- The `MyConfig` dataclass of the demo notebook, in declaration order,
with the descriptions of its docstring `Args:` block. -/
def myConfig : SchemaDescriptor :=
  { name := "MyConfig"
    params := [
      { name := "param1", declaredType := "int", defaultKind := .required,
        storage := .transient,
        description := "Parameter 1 (required).", origin := "MyConfig" },
      { name := "param2", declaredType := "str",
        defaultKind := .literal (Value.vStr "param2"), storage := .stored,
        description := "Parameter 2 (optional).", origin := "MyConfig" },
      { name := "param3", declaredType := "float", defaultKind := .derived,
        storage := .stored,
        description := "Parameter 3 (not configurable and not visible).",
        origin := "MyConfig", sources := ["param1"] }]
    hook := myConfigHook }

/-- The `MyConfig2` dataclass of the multiple-configs demo cell:
`param4 : bool = False`. -/
def myConfig2 : SchemaDescriptor :=
  { name := "MyConfig2"
    params := [
      { name := "param4", declaredType := "bool",
        defaultKind := .literal (Value.vBool false), storage := .stored,
        description := "The fourth parameter from another config.",
        origin := "MyConfig2" }]
    hook := { sources := [], compute := fun _ => [] } }

/-- The body of `MyConfigurable.__init__(self, attr1=1, attr2=2)`:
`self.attr = attr1 + attr2`. -/
def myConfigurableInit : Initializer := fun attrs kwargs =>
  let a1 : ℤ := match lookupKw kwargs "attr1" with
    | some (Value.vInt n) => n
    | _ => 1
  let a2 : ℤ := match lookupKw kwargs "attr2" with
    | some (Value.vInt n) => n
    | _ => 2
  attrs ++ [("attr", Value.vInt (a1 + a2))]

/-- The `MyConfigurable` class as written in the demo: a plain class
syntactically extending `MyConfig`. -/
def myConfigurableTarget : TargetClass :=
  { name := "MyConfigurable"
    configBases := [myConfig]
    otherBases := []
    innerConfigs := []
    isDataclass := false }

/-- The decorated `MyConfigurable` class of the demo. -/
def myConfigurable : BoundClass := configurable myConfigurableTarget []

/-- The demo construction call
`MyConfigurable(attr2=99, param1=1, param2="PARAM2")`. -/
def demoKwargs : Kwargs :=
  [("attr2", Value.vInt 99), ("param1", Value.vInt 1),
   ("param2", Value.vStr "PARAM2")]

/-- The demo instance `obj = MyConfigurable(attr2=99, param1=1,
param2="PARAM2")`. -/
def demoObj : Except ConfigError Instance :=
  construct myConfigurable myConfigurableInit demoKwargs

/-! ## Supporting lemmas -/

/-- The resolved value of one parameter before hooks run: the supplied
keyword argument if any, else the literal default, else nothing yet. -/
def resolvedValue (kwargs : Kwargs) (p : ParameterSpec) : Option Value :=
  match lookupKw kwargs p.name with
  | some v => some v
  | none =>
    match p.defaultKind with
    | .literal v => some v
    | _ => none

/-- The mapping `resolveBase` produces on success, in registry order. -/
def baseResolved (reg : List ParameterSpec) (kwargs : Kwargs) :
    List (String × Value) :=
  specMap (resolvedValue kwargs) reg

theorem mem_namesOf {reg : List ParameterSpec} {n : String} :
    n ∈ namesOf reg ↔ ∃ p ∈ reg, p.name = n := by
  rw [namesOf]
  exact List.mem_map

theorem namesOf_cons (p : ParameterSpec) (reg : List ParameterSpec) :
    namesOf (p :: reg) = p.name :: namesOf reg := rfl

theorem lookupKw_cons_self {kv : String × Value} {l : Kwargs} :
    lookupKw (kv :: l) kv.1 = some kv.2 := by
  rw [lookupKw, List.find?_cons_of_pos _ (by simp)]
  rfl

theorem lookupKw_cons_ne {kv : String × Value} {l : Kwargs} {n : String}
    (h : kv.1 ≠ n) : lookupKw (kv :: l) n = lookupKw l n := by
  rw [lookupKw, List.find?_cons_of_neg _ (by simpa using h)]
  rfl

theorem specMap_cons_some {f : ParameterSpec → Option Value} {p : ParameterSpec}
    {v : Value} (reg : List ParameterSpec) (h : f p = some v) :
    specMap f (p :: reg) = (p.name, v) :: specMap f reg := by
  simp [specMap, List.filterMap_cons, h]

theorem specMap_cons_none {f : ParameterSpec → Option Value} {p : ParameterSpec}
    (reg : List ParameterSpec) (h : f p = none) :
    specMap f (p :: reg) = specMap f reg := by
  simp [specMap, List.filterMap_cons, h]

theorem lookupKw_specMap_notin {f : ParameterSpec → Option Value}
    {reg : List ParameterSpec} {n : String} (h : n ∉ namesOf reg) :
    lookupKw (specMap f reg) n = none := by
  induction reg with
  | nil => simp [specMap, lookupKw]
  | cons p rest ih =>
    have hp : p.name ≠ n :=
      fun he => h (mem_namesOf.mpr ⟨p, List.mem_cons_self _ _, he⟩)
    have h' : n ∉ namesOf rest := fun he => by
      obtain ⟨q, hq, hqe⟩ := mem_namesOf.mp he
      exact h (mem_namesOf.mpr ⟨q, List.mem_cons_of_mem _ hq, hqe⟩)
    cases hf : f p with
    | none => rw [specMap_cons_none _ hf]; exact ih h'
    | some v => rw [specMap_cons_some _ hf, lookupKw_cons_ne hp]; exact ih h'

theorem lookupKw_specMap_of_eq {f : ParameterSpec → Option Value}
    {reg : List ParameterSpec} {n : String} {v : Value} (hn : n ∈ namesOf reg)
    (hf : ∀ p ∈ reg, p.name = n → f p = some v) :
    lookupKw (specMap f reg) n = some v := by
  induction reg with
  | nil => simp [namesOf] at hn
  | cons p rest ih =>
    by_cases hp : p.name = n
    · rw [specMap_cons_some _ (hf p (List.mem_cons_self _ _) hp), ← hp,
        lookupKw_cons_self]
    · have hn' : n ∈ namesOf rest := by
        obtain ⟨q, hq, hqe⟩ := mem_namesOf.mp hn
        rcases List.mem_cons.mp hq with rfl | hq'
        · exact absurd hqe hp
        · exact mem_namesOf.mpr ⟨q, hq', hqe⟩
      have hf' : ∀ p ∈ rest, p.name = n → f p = some v :=
        fun q hq => hf q (List.mem_cons_of_mem _ hq)
      cases hc : f p with
      | none => rw [specMap_cons_none _ hc]; exact ih hn' hf'
      | some w => rw [specMap_cons_some _ hc, lookupKw_cons_ne hp]; exact ih hn' hf'

theorem lookupKw_specMap_of_none {f : ParameterSpec → Option Value}
    {reg : List ParameterSpec} {n : String}
    (hf : ∀ p ∈ reg, p.name = n → f p = none) :
    lookupKw (specMap f reg) n = none := by
  induction reg with
  | nil => simp [specMap, lookupKw]
  | cons p rest ih =>
    have hf' : ∀ p ∈ rest, p.name = n → f p = none :=
      fun q hq => hf q (List.mem_cons_of_mem _ hq)
    by_cases hp : p.name = n
    · rw [specMap_cons_none _ (hf p (List.mem_cons_self _ _) hp)]; exact ih hf'
    · cases hc : f p with
      | none => rw [specMap_cons_none _ hc]; exact ih hf'
      | some w => rw [specMap_cons_some _ hc, lookupKw_cons_ne hp]; exact ih hf'

theorem lookupKw_specMap_nodup {f : ParameterSpec → Option Value}
    {reg : List ParameterSpec} {p : ParameterSpec}
    (hnd : (namesOf reg).Nodup) (hp : p ∈ reg) :
    lookupKw (specMap f reg) p.name = f p := by
  induction reg with
  | nil => simp at hp
  | cons q rest ih =>
    rw [namesOf_cons] at hnd
    have hq1 : q.name ∉ namesOf rest := (List.nodup_cons.mp hnd).1
    have hnd' : (namesOf rest).Nodup := (List.nodup_cons.mp hnd).2
    rcases List.mem_cons.mp hp with rfl | hp'
    · cases hf : f p with
      | some v => rw [specMap_cons_some _ hf, lookupKw_cons_self]
      | none =>
        rw [specMap_cons_none _ hf]
        exact lookupKw_specMap_notin hq1
    · have hq : q.name ≠ p.name :=
        fun he => hq1 (he ▸ mem_namesOf.mpr ⟨p, hp', rfl⟩)
      cases hf : f q with
      | none => rw [specMap_cons_none _ hf]; exact ih hnd' hp'
      | some w => rw [specMap_cons_some _ hf, lookupKw_cons_ne hq]; exact ih hnd' hp'

theorem name_mem_specMap {f : ParameterSpec → Option Value}
    {reg : List ParameterSpec} {p : ParameterSpec} {v : Value}
    (hp : p ∈ reg) (hf : f p = some v) :
    p.name ∈ (specMap f reg).map (·.1) := by
  induction reg with
  | nil => simp at hp
  | cons q rest ih =>
    rcases List.mem_cons.mp hp with rfl | hp'
    · rw [specMap_cons_some _ hf]; simp
    · cases hc : f q with
      | none => rw [specMap_cons_none _ hc]; exact ih hp'
      | some w => rw [specMap_cons_some _ hc]; simpa using .inr (by simpa using ih hp')

theorem lookupKw_append_some {l₁ : Kwargs} (l₂ : Kwargs) {n : String} {v : Value}
    (h : lookupKw l₁ n = some v) : lookupKw (l₁ ++ l₂) n = some v := by
  unfold lookupKw at h ⊢
  rw [List.find?_append]
  cases hf : List.find? (fun kv => decide (kv.1 = n)) l₁ with
  | none => rw [hf] at h; simp at h
  | some kv => rw [hf] at h; simpa [Option.or] using h

theorem lookupKw_applyHooks {hooks : List Hook} {base : List (String × Value)}
    {resolved : List (String × Value)} {n : String} {v : Value}
    (hok : applyHooks hooks base = .ok resolved)
    (h : lookupKw base n = some v) : lookupKw resolved n = some v := by
  induction hooks generalizing base with
  | nil =>
    simp only [applyHooks, Except.ok.injEq] at hok
    rwa [← hok]
  | cons hk rest ih =>
    simp only [applyHooks] at hok
    cases hf : hk.sources.find? (fun s => (lookupKw base s).isNone) with
    | some s => rw [hf] at hok; simp at hok
    | none =>
      rw [hf] at hok
      exact ih hok (lookupKw_append_some _ h)

theorem resolveBase_ok_eq {reg : List ParameterSpec} {kwargs : Kwargs}
    {base : List (String × Value)} (h : resolveBase reg kwargs = .ok base) :
    base = baseResolved reg kwargs := by
  induction reg generalizing base with
  | nil =>
    simp [resolveBase] at h
    simp [baseResolved, specMap, ← h]
  | cons p rest ih =>
    simp only [resolveBase] at h
    cases hk : lookupKw kwargs p.name with
    | some v =>
      rw [hk] at h
      cases hr : resolveBase rest kwargs with
      | error e => rw [hr] at h; simp [Except.map] at h
      | ok m =>
        rw [hr] at h
        simp only [Except.map, Except.ok.injEq] at h
        simp [baseResolved, specMap, List.filterMap_cons, resolvedValue, hk,
          ← h, ih hr]
    | none =>
      rw [hk] at h
      cases hd : p.defaultKind with
      | required => rw [hd] at h; simp at h
      | literal v =>
        rw [hd] at h
        cases hr : resolveBase rest kwargs with
        | error e => rw [hr] at h; simp [Except.map] at h
        | ok m =>
          rw [hr] at h
          simp only [Except.map, Except.ok.injEq] at h
          simp [baseResolved, specMap, List.filterMap_cons, resolvedValue, hk,
            hd, ← h, ih hr]
      | derived =>
        rw [hd] at h
        simp [baseResolved, specMap, List.filterMap_cons, resolvedValue, hk,
          hd, ih h]

theorem resolveBase_ok_of_supplied {reg : List ParameterSpec} {kwargs : Kwargs}
    (h : ∀ p ∈ reg, p.defaultKind = DefaultKind.required →
      lookupKw kwargs p.name ≠ none) :
    resolveBase reg kwargs = .ok (baseResolved reg kwargs) := by
  induction reg with
  | nil => simp [resolveBase, baseResolved, specMap]
  | cons p rest ih =>
    have hrest := ih (fun q hq => h q (List.mem_cons_of_mem _ hq))
    cases hk : lookupKw kwargs p.name with
    | some v =>
      simp [resolveBase, hk, hrest, Except.map, baseResolved, specMap,
        List.filterMap_cons, resolvedValue]
    | none =>
      cases hd : p.defaultKind with
      | required =>
        exact absurd hk (h p (List.mem_cons_self _ _) hd)
      | literal v =>
        simp [resolveBase, hk, hd, hrest, Except.map, baseResolved, specMap,
          List.filterMap_cons, resolvedValue]
      | derived =>
        simp [resolveBase, hk, hd, hrest, baseResolved, specMap,
          List.filterMap_cons, resolvedValue]

theorem resolveBase_error_of_missing {reg : List ParameterSpec} {kwargs : Kwargs}
    (h : ∃ p ∈ reg, p.defaultKind = DefaultKind.required ∧
      lookupKw kwargs p.name = none) :
    ∃ p ∈ reg, p.defaultKind = DefaultKind.required ∧
      lookupKw kwargs p.name = none ∧
      resolveBase reg kwargs = .error (.missingRequiredParameter p.name) := by
  induction reg with
  | nil => simp at h
  | cons p rest ih =>
    cases hk : lookupKw kwargs p.name with
    | some v =>
      obtain ⟨q, hq, hreq, hnone⟩ := h
      rcases List.mem_cons.mp hq with rfl | hq'
      · rw [hk] at hnone; exact absurd hnone (by simp)
      · obtain ⟨r, hr, hreq', hnone', herr⟩ := ih ⟨q, hq', hreq, hnone⟩
        exact ⟨r, List.mem_cons_of_mem _ hr, hreq', hnone',
          by simp [resolveBase, hk, herr, Except.map]⟩
    | none =>
      cases hd : p.defaultKind with
      | required =>
        exact ⟨p, List.mem_cons_self _ _, hd, hk, by simp [resolveBase, hk, hd]⟩
      | literal v =>
        obtain ⟨q, hq, hreq, hnone⟩ := h
        rcases List.mem_cons.mp hq with rfl | hq'
        · rw [hd] at hreq; exact absurd hreq (by simp)
        · obtain ⟨r, hr, hreq', hnone', herr⟩ := ih ⟨q, hq', hreq, hnone⟩
          exact ⟨r, List.mem_cons_of_mem _ hr, hreq', hnone',
            by simp [resolveBase, hk, hd, herr, Except.map]⟩
      | derived =>
        obtain ⟨q, hq, hreq, hnone⟩ := h
        rcases List.mem_cons.mp hq with rfl | hq'
        · rw [hd] at hreq; exact absurd hreq (by simp)
        · obtain ⟨r, hr, hreq', hnone', herr⟩ := ih ⟨q, hq', hreq, hnone⟩
          exact ⟨r, List.mem_cons_of_mem _ hr, hreq', hnone',
            by simp [resolveBase, hk, hd, herr]⟩

theorem lookupKw_snapshotOf {reg : List ParameterSpec}
    {resolved : List (String × Value)} {n : String}
    (h : n ∈ namesOf reg) :
    lookupKw (snapshotOf reg resolved) n = lookupKw resolved n := by
  rw [snapshotOf]
  cases hr : lookupKw resolved n with
  | some v => exact lookupKw_specMap_of_eq h (fun p _ hp => by rw [hp, hr])
  | none => exact lookupKw_specMap_of_none (fun p _ hp => by rw [hp, hr])

theorem lookupKw_storedAttrs {reg : List ParameterSpec}
    {resolved : List (String × Value)} {p : ParameterSpec}
    (hnd : (namesOf reg).Nodup) (hp : p ∈ reg) (hs : p.storage = Storage.stored) :
    lookupKw (storedAttrs reg resolved) p.name = lookupKw resolved p.name := by
  rw [storedAttrs, lookupKw_specMap_nodup hnd hp, if_pos hs]

theorem lookupKw_baseResolved_supplied {reg : List ParameterSpec} {kwargs : Kwargs}
    {n : String} {v : Value} (hn : n ∈ namesOf reg)
    (h : lookupKw kwargs n = some v) :
    lookupKw (baseResolved reg kwargs) n = some v := by
  rw [baseResolved]
  exact lookupKw_specMap_of_eq hn
    (fun p _ hp => by rw [resolvedValue, hp, h])

theorem lookupKw_baseResolved_nodup {reg : List ParameterSpec} {kwargs : Kwargs}
    {p : ParameterSpec} (hnd : (namesOf reg).Nodup) (hp : p ∈ reg) :
    lookupKw (baseResolved reg kwargs) p.name = resolvedValue kwargs p := by
  rw [baseResolved, lookupKw_specMap_nodup hnd hp]

/-- Replace a spec's `defaultKind` (with the derivation sources that are
part of it in the spec's data model, §3 `Derived(hook, sourceParams)`),
`description` and `origin` with a later redeclaration's values, keeping
`name`, `declaredType` and `storage`. -/
def overrideWith (q p : ParameterSpec) : ParameterSpec :=
  { p with defaultKind := q.defaultKind, description := q.description,
           origin := q.origin, sources := q.sources }

theorem findSpec_name {reg : List ParameterSpec} {n : String} {p : ParameterSpec}
    (h : findSpec reg n = some p) : p.name = n := by
  have := List.find?_some h
  simpa using this

theorem findSpec_mem_names {reg : List ParameterSpec} {n : String}
    (h : n ∈ namesOf reg) : ∃ p, findSpec reg n = some p := by
  induction reg with
  | nil => simp [namesOf] at h
  | cons q rest ih =>
    by_cases hq : q.name = n
    · exact ⟨q, by rw [findSpec, List.find?_cons_of_pos _ (by simpa using hq)]⟩
    · have h' : n ∈ namesOf rest := by
        obtain ⟨p, hp, hpn⟩ := mem_namesOf.mp h
        rcases List.mem_cons.mp hp with rfl | hp'
        · exact absurd hpn hq
        · exact mem_namesOf.mpr ⟨p, hp', hpn⟩
      obtain ⟨p, hp⟩ := ih h'
      exact ⟨p, by rw [findSpec, List.find?_cons_of_neg _ (by simpa using hq)]; exact hp⟩

theorem namesOf_mergeInto_override {acc : List ParameterSpec} {q : ParameterSpec}
    (h : acc.any (fun p => p.name = q.name)) :
    namesOf (mergeInto acc q) = namesOf acc := by
  rw [mergeInto, if_pos h, namesOf, namesOf, List.map_map]
  exact List.map_congr_left fun p _ => by
    by_cases hp : p.name = q.name <;> simp [hp, Function.comp]

theorem namesOf_mergeInto_append {acc : List ParameterSpec} {q : ParameterSpec}
    (h : ¬ acc.any (fun p => p.name = q.name)) :
    namesOf (mergeInto acc q) = namesOf acc ++ [q.name] := by
  rw [mergeInto, if_neg h, namesOf, namesOf, List.map_append]
  rfl

theorem mem_namesOf_mergeInto {acc : List ParameterSpec} {q : ParameterSpec}
    {n : String} (h : n ∈ namesOf acc) : n ∈ namesOf (mergeInto acc q) := by
  by_cases hc : acc.any (fun p => p.name = q.name)
  · rwa [namesOf_mergeInto_override hc]
  · rw [namesOf_mergeInto_append hc]
    exact List.mem_append_left _ h

theorem namesOf_foldl_mergeInto (qs : List ParameterSpec)
    (acc : List ParameterSpec) :
    ∃ rest, namesOf (qs.foldl mergeInto acc) = namesOf acc ++ rest := by
  induction qs generalizing acc with
  | nil => exact ⟨[], by simp⟩
  | cons q qs ih =>
    obtain ⟨rest, hr⟩ := ih (mergeInto acc q)
    by_cases h : acc.any (fun p => p.name = q.name)
    · exact ⟨rest, by rw [List.foldl_cons, hr, namesOf_mergeInto_override h]⟩
    · refine ⟨q.name :: rest, ?_⟩
      rw [List.foldl_cons, hr, namesOf_mergeInto_append h, List.append_assoc]
      rfl

theorem findSpec_map_namePreserving {acc : List ParameterSpec} {n : String}
    (f : ParameterSpec → ParameterSpec) (hf : ∀ p, (f p).name = p.name) :
    findSpec (acc.map f) n = (findSpec acc n).map f := by
  induction acc with
  | nil => rfl
  | cons p rest ih =>
    by_cases hp : p.name = n
    · rw [List.map_cons, findSpec, List.find?_cons_of_pos _ (by simp [hf, hp]),
        findSpec, List.find?_cons_of_pos _ (by simpa using hp)]
      rfl
    · rw [List.map_cons, findSpec, List.find?_cons_of_neg _ (by simp [hf, hp]),
        findSpec, List.find?_cons_of_neg _ (by simpa using hp)]
      exact ih

theorem findSpec_mergeInto_ne {acc : List ParameterSpec} {q : ParameterSpec}
    {n : String} (hne : q.name ≠ n) :
    findSpec (mergeInto acc q) n = findSpec acc n := by
  rw [mergeInto]
  by_cases h : acc.any (fun p => p.name = q.name)
  · rw [if_pos h, findSpec_map_namePreserving _
      (fun p => by by_cases hpq : p.name = q.name <;> simp [hpq, overrideWith])]
    cases hfs : findSpec acc n with
    | none => rfl
    | some p =>
      have hpn : p.name = n := findSpec_name hfs
      have hpq : ¬ p.name = q.name := fun he => hne (he ▸ hpn ▸ rfl)
      simp [hpq]
  · rw [if_neg h, findSpec, List.find?_append]
    have h2 : List.find? (fun p => decide (p.name = n)) [q] = none := by
      simp [hne]
    rw [h2, Option.or_none]
    rfl

theorem findSpec_mergeInto_self {acc : List ParameterSpec} {q : ParameterSpec}
    (hmem : q.name ∈ namesOf acc) :
    findSpec (mergeInto acc q) q.name =
      (findSpec acc q.name).map (overrideWith q) := by
  obtain ⟨r, hr, hrn⟩ := mem_namesOf.mp hmem
  rw [mergeInto, if_pos (by
    rw [List.any_eq_true]
    exact ⟨r, hr, by simpa using hrn⟩)]
  rw [findSpec_map_namePreserving _
    (fun p => by by_cases hpq : p.name = q.name <;> simp [hpq, overrideWith])]
  cases hfs : findSpec acc q.name with
  | none => rfl
  | some p =>
    have hpn := findSpec_name hfs
    simp [hpn, overrideWith]

theorem findSpec_foldl_mergeInto_none {qs acc : List ParameterSpec} {n : String}
    (hq : ∀ q ∈ qs, q.name ≠ n) :
    findSpec (qs.foldl mergeInto acc) n = findSpec acc n := by
  induction qs generalizing acc with
  | nil => rfl
  | cons q rest ih =>
    rw [List.foldl_cons, ih (fun r hr => hq r (List.mem_cons_of_mem _ hr)),
      findSpec_mergeInto_ne (hq q (List.mem_cons_self _ _))]

theorem findSpec_foldl_mergeInto_override {qs acc : List ParameterSpec}
    {n : String} {q : ParameterSpec} (hmem : n ∈ namesOf acc)
    (hfilter : qs.filter (fun p => p.name = n) = [q]) :
    findSpec (qs.foldl mergeInto acc) n = (findSpec acc n).map (overrideWith q) := by
  induction qs generalizing acc with
  | nil => simp at hfilter
  | cons r rest ih =>
    by_cases hr : r.name = n
    · rw [List.filter_cons_of_pos (by simpa using hr)] at hfilter
      have hrq : r = q := (List.cons.injEq _ _ _ _).mp hfilter |>.1
      have hrest : rest.filter (fun p => p.name = n) = [] :=
        (List.cons.injEq _ _ _ _).mp hfilter |>.2
      have hnone : ∀ p ∈ rest, p.name ≠ n := by
        intro p hp he
        have : p ∈ rest.filter (fun p => p.name = n) :=
          List.mem_filter.mpr ⟨hp, by simpa using he⟩
        rw [hrest] at this
        simp at this
      rw [List.foldl_cons, findSpec_foldl_mergeInto_none hnone, ← hr, ← hrq,
        findSpec_mergeInto_self (hr ▸ hmem : r.name ∈ namesOf acc)]
    · rw [List.filter_cons_of_neg (by simpa using hr)] at hfilter
      rw [List.foldl_cons, ih (mem_namesOf_mergeInto hmem) hfilter,
        findSpec_mergeInto_ne hr]

theorem findIdx_append_of_mem {l₁ l₂ : List String} {n : String} (h : n ∈ l₁) :
    (l₁ ++ l₂).findIdx (fun m => m = n) = l₁.findIdx (fun m => m = n) := by
  induction l₁ with
  | nil => simp at h
  | cons a l ih =>
    by_cases ha : a = n
    · simp [List.findIdx_cons, ha]
    · have h' : n ∈ l := by
        rcases List.mem_cons.mp h with rfl | h'
        · exact absurd rfl ha
        · exact h'
      simp [List.findIdx_cons, ha, ih h']

theorem foldl_mergeInto_of_nodup {qs acc : List ParameterSpec}
    (h : (namesOf acc ++ namesOf qs).Nodup) :
    qs.foldl mergeInto acc = acc ++ qs := by
  induction qs generalizing acc with
  | nil => simp
  | cons q rest ih =>
    have h' : (q.name :: (namesOf acc ++ namesOf rest)).Nodup := by
      rw [← List.nodup_middle]
      simpa [namesOf_cons] using h
    have hq : q.name ∉ namesOf acc :=
      fun hm => (List.nodup_cons.mp h').1 (List.mem_append_left _ hm)
    have hany : ¬ acc.any (fun p => p.name = q.name) := by
      rw [List.any_eq_true]
      rintro ⟨p, hp, hpe⟩
      exact hq (mem_namesOf.mpr ⟨p, hp, by simpa using hpe⟩)
    rw [List.foldl_cons, mergeInto, if_neg hany,
      ih (by simpa [namesOf, List.map_append, List.append_assoc] using
        List.nodup_middle.mpr h'),
      List.append_assoc]
    rfl

/-- The stored/transient split of `extractParams` is a permutation of the
declaration order. -/
theorem extractParams_perm (s : SchemaDescriptor) :
    (extractParams s).Perm s.params := by
  have h : (fun p : ParameterSpec => decide (p.storage = Storage.transient))
      = (fun p => !decide (p.storage = Storage.stored)) :=
    funext fun p => by cases hs : p.storage <;> simp [hs]
  rw [extractParams, show (fun p : ParameterSpec => decide (p.storage = Storage.transient)) = _ from h]
  exact List.filter_append_perm _ s.params

theorem mergeIntoChecked_ok {acc : List ParameterSpec} {q : ParameterSpec}
    {reg : List ParameterSpec} (h : mergeIntoChecked acc q = .ok reg) :
    reg = mergeInto acc q := by
  cases hf : findSpec acc q.name with
  | none =>
    simp only [mergeIntoChecked, hf, Except.ok.injEq] at h
    have hany : acc.any (fun p => p.name = q.name) = false := by
      rw [List.any_eq_false]
      intro p hp
      have := List.find?_eq_none.mp hf p hp
      simpa using this
    rw [mergeInto, if_neg (by simp [hany])]
    exact h.symm
  | some p =>
    simp only [mergeIntoChecked, hf] at h
    by_cases h1 : ¬ q.storage = p.storage
    · rw [if_pos h1] at h; simp at h
    · rw [if_neg h1] at h
      by_cases h2 : p.storage = Storage.stored
          ∧ q.defaultKind = DefaultKind.derived
          ∧ ¬ p.defaultKind = DefaultKind.derived
          ∧ ¬ (∀ s ∈ q.sources, s ∈ namesOf acc)
      · rw [if_pos h2] at h; simp at h
      · rw [if_neg h2] at h
        simpa using h.symm

theorem mergeSpecsChecked_ok {qs : List ParameterSpec} :
    ∀ {acc reg : List ParameterSpec},
      mergeSpecsChecked acc qs = .ok reg → reg = qs.foldl mergeInto acc := by
  induction qs with
  | nil =>
    intro acc reg h
    simp only [mergeSpecsChecked, Except.ok.injEq] at h
    simp [← h]
  | cons q rest ih =>
    intro acc reg h
    simp only [mergeSpecsChecked] at h
    cases hm : mergeIntoChecked acc q with
    | error e => rw [hm] at h; simp at h
    | ok acc' =>
      rw [hm] at h
      rw [List.foldl_cons, ← mergeIntoChecked_ok hm]
      exact ih h

theorem mergeSchemasChecked_ok {schemas : List SchemaDescriptor} :
    ∀ {acc reg : List ParameterSpec},
      mergeSchemasChecked acc schemas = .ok reg →
      reg = schemas.foldl (fun a s => (extractParams s).foldl mergeInto a) acc := by
  induction schemas with
  | nil =>
    intro acc reg h
    simp only [mergeSchemasChecked, Except.ok.injEq] at h
    simp [← h]
  | cons s rest ih =>
    intro acc reg h
    simp only [mergeSchemasChecked] at h
    cases hm : mergeSpecsChecked acc (extractParams s) with
    | error e => rw [hm] at h; simp at h
    | ok acc' =>
      rw [hm] at h
      rw [List.foldl_cons, ← mergeSpecsChecked_ok hm]
      exact ih h

/-- A successful checked merge computes exactly the total merge: the
conflict checks reject, they never change the override result. -/
theorem mergeRegistryChecked_ok {schemas : List SchemaDescriptor}
    {reg : List ParameterSpec} (h : mergeRegistryChecked schemas = .ok reg) :
    reg = mergeRegistry schemas :=
  mergeSchemasChecked_ok h

/-- A successful decoration yields exactly `configurable`'s bound class. -/
theorem bind_ok_eq {t : TargetClass} {explicit : List SchemaDescriptor}
    {bc : BoundClass} (h : bind t explicit = .ok bc) :
    bc = configurable t explicit := by
  rw [bind] at h
  cases hm : mergeRegistryChecked (schemasOf t explicit) with
  | error e => rw [hm] at h; simp at h
  | ok reg =>
    rw [hm] at h
    simp only [Except.ok.injEq] at h
    rw [← h, configurable, mergeRegistryChecked_ok hm]

theorem showParams_names (reg : List ParameterSpec)
    (value : ParameterSpec → Option Value) :
    (showParams reg value).map (fun s => s.name)
      = namesOf (reg.filter (fun p => ¬ p.defaultKind = DefaultKind.derived)) := by
  induction reg with
  | nil => rfl
  | cons p rest ih =>
    by_cases hp : p.defaultKind = DefaultKind.derived
    · rw [showParams, List.filterMap_cons,
        List.filter_cons_of_neg (by simpa using hp)]
      simpa [showParams, hp] using ih
    · rw [showParams, List.filterMap_cons,
        List.filter_cons_of_pos (by simpa using hp)]
      simp only [hp, if_false, namesOf_cons, List.map_cons]
      simpa [showParams, hp, namesOf] using congrArg (p.name :: ·) ih

theorem showParams_proj (reg : List ParameterSpec)
    (value value' : ParameterSpec → Option Value) :
    (showParams reg value).map (fun s => (s.name, s.declaredType, s.description))
      = (showParams reg value').map (fun s => (s.name, s.declaredType, s.description)) := by
  induction reg with
  | nil => rfl
  | cons p rest ih =>
    by_cases hp : p.defaultKind = DefaultKind.derived
    · simpa [showParams, List.filterMap_cons, hp] using ih
    · simpa [showParams, List.filterMap_cons, hp] using ih

theorem eq_of_name_eq_of_nodup {reg : List ParameterSpec}
    (hnd : (namesOf reg).Nodup) {p q : ParameterSpec}
    (hp : p ∈ reg) (hq : q ∈ reg) (he : p.name = q.name) : p = q := by
  induction reg with
  | nil => simp at hp
  | cons r rest ih =>
    rw [namesOf_cons] at hnd
    have hr1 : r.name ∉ namesOf rest := (List.nodup_cons.mp hnd).1
    have hnd' : (namesOf rest).Nodup := (List.nodup_cons.mp hnd).2
    rcases List.mem_cons.mp hp with rfl | hp' <;>
      rcases List.mem_cons.mp hq with rfl | hq'
    · rfl
    · exact absurd (he.symm ▸ mem_namesOf.mpr ⟨q, hq', rfl⟩) hr1
    · exact absurd (he ▸ mem_namesOf.mpr ⟨p, hp', rfl⟩) hr1
    · exact ih hnd' hp' hq'

/-- Unfolding of a successful construction: the hooks resolved, and the
instance's fields are the injector's outputs. -/
theorem construct_ok {bc : BoundClass} {init : Initializer} {kwargs : Kwargs}
    {inst : Instance} (h : construct bc init kwargs = .ok inst) :
    ∃ resolved,
      applyHooks bc.hooks (baseResolved bc.registry kwargs) = .ok resolved
      ∧ inst.attrsBeforeInit = storedAttrs bc.registry resolved
      ∧ inst.forwarded = passThrough bc.registry kwargs
      ∧ inst.attrs = init inst.attrsBeforeInit inst.forwarded
      ∧ inst.snapshot = snapshotOf bc.registry resolved := by
  cases hr : resolveBase bc.registry kwargs with
  | error e => simp [construct, hr] at h
  | ok base =>
    cases ha : applyHooks bc.hooks base with
    | error e => simp [construct, hr, ha] at h
    | ok resolved =>
      simp only [construct, hr, ha] at h
      have h' := (Except.ok.injEq _ _).mp h
      subst h'
      exact ⟨resolved, by rw [← resolveBase_ok_eq hr]; exact ha,
        rfl, rfl, rfl, rfl⟩

/-- The instance the demo construction produces, written out: `param2` and
`param3` set as attributes (in that order), `attr2=99` forwarded to the
target's own initializer (which adds `attr = 100`), and the snapshot
holding `param2`, `param3` and the transient `param1`. -/
def demoInst : Instance :=
  { attrsBeforeInit := [("param2", Value.vStr "PARAM2"),
      ("param3", Value.vFloat ⟨false, 6004799503160661, -2⟩)]
    forwarded := [("attr2", Value.vInt 99)]
    attrs := [("param2", Value.vStr "PARAM2"),
      ("param3", Value.vFloat ⟨false, 6004799503160661, -2⟩),
      ("attr", Value.vInt 100)]
    snapshot := [("param2", Value.vStr "PARAM2"),
      ("param3", Value.vFloat ⟨false, 6004799503160661, -2⟩),
      ("param1", Value.vInt 1)] }

/-! ## The claims -/

/-- C2: constructing the bound target with `attr2=99, param1=1,
param2="PARAM2"` yields an instance whose attribute `param2` equals
`"PARAM2"`, whose attribute `param3` equals `0.3333333333333333` (the
binary64 number the decimal literal denotes, which is exactly the
correctly rounded `1/3`), and which has no `param1` attribute. -/
theorem demo_construction_end_to_end :
    demoObj.map (fun inst =>
        (lookupKw inst.attrs "param2", lookupKw inst.attrs "param3",
         lookupKw inst.attrs "param1"))
      = Except.ok (some (Value.vStr "PARAM2"),
          some (Value.vFloat (f64OfDecimal 3333333333333333 16)), none) := by
  rfl

/-- C1, counterexample: on the demo instance, `show_config_params` lists
the transient `param1` (with its resolved value `1`) and does not list the
derived `param3` — the reverse of the claim's "a Transient parameter never
appears, while each Derived field does".  The conjuncts record that
`param1` is indeed transient and `param3` indeed derived in the class
registry, and that `demoInst` is the instance the demo construction
returns. -/
theorem showInst_demo_lists_param1_not_param3 :
    construct myConfigurable myConfigurableInit demoKwargs = Except.ok demoInst
    ∧ showConfigParamsInst myConfigurable demoInst
        = [⟨"param2", "str", "Parameter 2 (optional).", some (Value.vStr "PARAM2")⟩,
           ⟨"param1", "int", "Parameter 1 (required).", some (Value.vInt 1)⟩]
    ∧ (findSpec myConfigurable.registry "param1").map (fun p => p.storage)
        = some Storage.transient
    ∧ (findSpec myConfigurable.registry "param3").map (fun p => p.defaultKind)
        = some DefaultKind.derived := by
  exact ⟨by rfl, by decide, by decide, by decide⟩

/-- C1, amended: `show_config_params(instance)` lists exactly the
non-derived parameters of the registry, in registry order: a `Derived`
field never appears in the output (its computed value is set as an
instance attribute instead), while a `Transient` parameter does appear,
with its supplied resolved value. -/
theorem showInst_lists_exactly_nonDerived
    (bc : BoundClass) (init : Initializer) (kwargs : Kwargs) (inst : Instance)
    (hnd : (namesOf bc.registry).Nodup)
    (h : construct bc init kwargs = Except.ok inst) :
    (showConfigParamsInst bc inst).map (fun s => s.name)
        = namesOf (bc.registry.filter (fun p => ¬ p.defaultKind = DefaultKind.derived))
    ∧ (∀ p ∈ bc.registry, p.defaultKind = DefaultKind.derived →
        p.name ∉ (showConfigParamsInst bc inst).map (fun s => s.name))
    ∧ (∀ p ∈ bc.registry, ∀ v : Value, p.storage = Storage.transient →
        ¬ p.defaultKind = DefaultKind.derived →
        lookupKw kwargs p.name = some v →
        ShownParam.mk p.name p.declaredType p.description (some v)
          ∈ showConfigParamsInst bc inst) := by
  obtain ⟨resolved, hok, -, -, -, hsnap⟩ := construct_ok h
  refine ⟨showParams_names _ _, ?_, ?_⟩
  · intro p hp hder hmem
    rw [showConfigParamsInst, showParams_names] at hmem
    obtain ⟨q, hq, hqe⟩ := mem_namesOf.mp hmem
    have hqreg : q ∈ bc.registry := List.mem_of_mem_filter hq
    have hqder : ¬ q.defaultKind = DefaultKind.derived := by
      have := List.of_mem_filter hq
      simpa using this
    have hpq : p = q := eq_of_name_eq_of_nodup hnd hp hqreg hqe.symm
    exact hqder (hpq ▸ hder)
  · intro p hp v htr hder hkw
    have hmemn : p.name ∈ namesOf bc.registry := mem_namesOf.mpr ⟨p, hp, rfl⟩
    have hsnaplk : lookupKw inst.snapshot p.name = some v := by
      rw [hsnap, lookupKw_snapshotOf hmemn]
      exact lookupKw_applyHooks hok (lookupKw_baseResolved_supplied hmemn hkw)
    rw [showConfigParamsInst, showParams]
    refine List.mem_filterMap.mpr ⟨p, hp, ?_⟩
    rw [if_neg hder, hsnaplk]

/-- C1, witness: the amended statement holds on the demo construction. -/
theorem showInst_lists_exactly_nonDerived_demo :
    (namesOf myConfigurable.registry).Nodup
    ∧ ((showConfigParamsInst myConfigurable demoInst).map (fun s => s.name)
        = namesOf (myConfigurable.registry.filter
            (fun p => ¬ p.defaultKind = DefaultKind.derived))
      ∧ (∀ p ∈ myConfigurable.registry, p.defaultKind = DefaultKind.derived →
          p.name ∉ (showConfigParamsInst myConfigurable demoInst).map (fun s => s.name))
      ∧ (∀ p ∈ myConfigurable.registry, ∀ v : Value,
          p.storage = Storage.transient →
          ¬ p.defaultKind = DefaultKind.derived →
          lookupKw demoKwargs p.name = some v →
          ShownParam.mk p.name p.declaredType p.description (some v)
            ∈ showConfigParamsInst myConfigurable demoInst)) :=
  ⟨by decide,
   showInst_lists_exactly_nonDerived myConfigurable myConfigurableInit
     demoKwargs demoInst (by decide) (by rfl)⟩

/-- C9: `show_config_params` on the type and on an instance return the
same parameters, in the same order, with identical declared types and
descriptions; the two outputs can differ only in the values shown. -/
theorem showType_showInst_same_params (bc : BoundClass) (inst : Instance) :
    (showConfigParamsInst bc inst).map (fun s => (s.name, s.declaredType, s.description))
      = (showConfigParamsType bc).map (fun s => (s.name, s.declaredType, s.description)) := by
  rw [showConfigParamsInst, showConfigParamsType]
  exact showParams_proj _ _ _

/-- A schema whose single field is derived with the derived field itself
as declared source: the shortest circular derivation dependency.  Its
hook can never find its source resolved. -/
def circularConfig : SchemaDescriptor :=
  { name := "CircularConfig"
    params := [
      { name := "paramA", declaredType := "float", defaultKind := .derived,
        storage := .stored, description := "Derived from itself.",
        origin := "CircularConfig", sources := ["paramA"] }]
    hook :=
      { sources := ["paramA"]
        compute := fun env =>
          match env "paramA" with
          | some v => [("paramA", v)]
          | none => [] } }

/-- A target bound to the circular schema.  Decoration itself succeeds —
the circular dependency is a construction-time error (spec §7), not a
redeclaration conflict. -/
def circularBound : BoundClass :=
  configurable
    { name := "Circular", configBases := [circularConfig], otherBases := [],
      innerConfigs := [], isDataclass := false } []

/-- C3, counterexample: a bound target with a circular derivation
dependency.  Decoration succeeds, the call supplies every `Required`
parameter (vacuously — there is none), yet construction does not succeed:
it fails with the construction-time `SchemaConflict` naming the
unresolved source, refuting the claim's "if all Required parameters are
supplied, construction succeeds". -/
theorem construct_all_supplied_can_conflict :
    bind
        { name := "Circular", configBases := [circularConfig],
          otherBases := [], innerConfigs := [], isDataclass := false } []
      = Except.ok circularBound
    ∧ (∀ p ∈ circularBound.registry, p.defaultKind = DefaultKind.required →
        lookupKw [] p.name ≠ none)
    ∧ construct circularBound (fun attrs _ => attrs) [] =
        Except.error (ConfigError.schemaConflict "paramA") := by
  exact ⟨by rfl, by decide, by rfl⟩

/-- C3, amended: a construction call that supplies no value for some
`Required` parameter fails with `MissingRequiredParameter` naming an
unsupplied required parameter; since every failure is returned in place
of an instance, no attribute is set and no partially-constructed instance
is observable.  If every `Required` parameter is supplied, then either a
derivation hook finds one of its declared sources unresolved — a circular
or unresolved derivation dependency — and construction fails with that
construction-time `SchemaConflict`, likewise producing no instance, or
the hooks resolve and construction succeeds with the snapshot mapping
each parameter to its correct resolved value: the supplied value, else
the literal default, else (for derived fields) the value the hooks
produced. -/
theorem construct_required_resolution (bc : BoundClass) (init : Initializer)
    (kwargs : Kwargs) (hnd : (namesOf bc.registry).Nodup) :
    ((∃ p ∈ bc.registry, p.defaultKind = DefaultKind.required ∧
        lookupKw kwargs p.name = none) →
      ∃ p ∈ bc.registry, p.defaultKind = DefaultKind.required ∧
        lookupKw kwargs p.name = none ∧
        construct bc init kwargs =
          Except.error (ConfigError.missingRequiredParameter p.name))
    ∧ ((∀ p ∈ bc.registry, p.defaultKind = DefaultKind.required →
          lookupKw kwargs p.name ≠ none) →
      (∀ e, applyHooks bc.hooks (baseResolved bc.registry kwargs)
            = Except.error e →
          construct bc init kwargs = Except.error e)
      ∧ (∀ resolved,
          applyHooks bc.hooks (baseResolved bc.registry kwargs)
            = Except.ok resolved →
          ∃ inst, construct bc init kwargs = Except.ok inst
            ∧ (∀ p ∈ bc.registry, ∀ v : Value, lookupKw kwargs p.name = some v →
                lookupKw inst.snapshot p.name = some v)
            ∧ (∀ p ∈ bc.registry, ∀ v : Value, lookupKw kwargs p.name = none →
                p.defaultKind = DefaultKind.literal v →
                lookupKw inst.snapshot p.name = some v)
            ∧ (∀ p ∈ bc.registry, lookupKw kwargs p.name = none →
                p.defaultKind = DefaultKind.derived →
                lookupKw inst.snapshot p.name = lookupKw resolved p.name))) := by
  constructor
  · intro hmiss
    obtain ⟨p, hp, hreq, hnone, herr⟩ := resolveBase_error_of_missing hmiss
    exact ⟨p, hp, hreq, hnone, by rw [construct, herr]⟩
  · intro hsup
    have hokb := resolveBase_ok_of_supplied hsup
    constructor
    · intro e he
      simp only [construct, hokb, he]
    · intro resolved hres
      have hcons : construct bc init kwargs = Except.ok
          { attrsBeforeInit := storedAttrs bc.registry resolved
            forwarded := passThrough bc.registry kwargs
            attrs := init (storedAttrs bc.registry resolved)
              (passThrough bc.registry kwargs)
            snapshot := snapshotOf bc.registry resolved } := by
        simp only [construct, hokb, hres]
      refine ⟨_, hcons, ?_, ?_, ?_⟩
      · intro p hp v hv
        have hmemn : p.name ∈ namesOf bc.registry := mem_namesOf.mpr ⟨p, hp, rfl⟩
        show lookupKw (snapshotOf bc.registry resolved) p.name = some v
        rw [lookupKw_snapshotOf hmemn]
        exact lookupKw_applyHooks hres (lookupKw_baseResolved_supplied hmemn hv)
      · intro p hp v hnone hlit
        have hmemn : p.name ∈ namesOf bc.registry := mem_namesOf.mpr ⟨p, hp, rfl⟩
        show lookupKw (snapshotOf bc.registry resolved) p.name = some v
        rw [lookupKw_snapshotOf hmemn]
        have hbase : lookupKw (baseResolved bc.registry kwargs) p.name = some v := by
          rw [lookupKw_baseResolved_nodup hnd hp, resolvedValue, hnone, hlit]
        exact lookupKw_applyHooks hres hbase
      · intro p hp hnone hder
        show lookupKw (snapshotOf bc.registry resolved) p.name
          = lookupKw resolved p.name
        exact lookupKw_snapshotOf (mem_namesOf.mpr ⟨p, hp, rfl⟩)

/-- C3, witness: on the demo class, calling with no arguments at all
leaves the required `param1` unsupplied, and the theorem yields the
concrete `MissingRequiredParameter` failure. -/
theorem construct_required_resolution_demo :
    ∃ p ∈ myConfigurable.registry, p.defaultKind = DefaultKind.required ∧
      lookupKw [] p.name = none ∧
      construct myConfigurable myConfigurableInit [] =
        Except.error (ConfigError.missingRequiredParameter p.name) :=
  (construct_required_resolution myConfigurable myConfigurableInit []
      (by decide)).1
    (by decide)

/-- C4: keyword arguments whose names match a `ParameterSpec` of the
class-level registry are never forwarded to the target's own initializer;
exactly the remaining pass-through arguments are. -/
theorem construct_forwards_exactly_passThrough (bc : BoundClass)
    (init : Initializer) (kwargs : Kwargs) (inst : Instance)
    (h : construct bc init kwargs = Except.ok inst) :
    ∀ kv, kv ∈ inst.forwarded ↔
      (kv ∈ kwargs ∧ ∀ p ∈ bc.registry, p.name ≠ kv.1) := by
  obtain ⟨-, -, -, hfwd, -, -⟩ := construct_ok h
  intro kv
  rw [hfwd, passThrough, List.mem_filter]
  simp [List.any_eq_true]

/-- C4, witness: on the demo call, only `attr2=99` is forwarded. -/
theorem construct_forwards_exactly_passThrough_demo :
    construct myConfigurable myConfigurableInit demoKwargs = Except.ok demoInst
    ∧ ∀ kv, kv ∈ demoInst.forwarded ↔
        (kv ∈ demoKwargs ∧ ∀ p ∈ myConfigurable.registry, p.name ≠ kv.1) :=
  ⟨by rfl,
   construct_forwards_exactly_passThrough myConfigurable myConfigurableInit
     demoKwargs demoInst (by rfl)⟩

/-- C5: every stored parameter's resolved value — derived fields
included — is already set as an instance attribute in the state the
target's own initializer receives, and the final attributes are what the
initializer produces from exactly that state. -/
theorem construct_sets_stored_before_init (bc : BoundClass) (init : Initializer)
    (kwargs : Kwargs) (inst : Instance) (hnd : (namesOf bc.registry).Nodup)
    (h : construct bc init kwargs = Except.ok inst) :
    inst.attrs = init inst.attrsBeforeInit inst.forwarded
    ∧ ∀ p ∈ bc.registry, p.storage = Storage.stored →
        lookupKw inst.attrsBeforeInit p.name = lookupKw inst.snapshot p.name := by
  obtain ⟨resolved, hok, hpre, hfwd, hattrs, hsnap⟩ := construct_ok h
  refine ⟨hattrs, fun p hp hs => ?_⟩
  rw [hpre, hsnap, lookupKw_storedAttrs hnd hp hs,
    lookupKw_snapshotOf (mem_namesOf.mpr ⟨p, hp, rfl⟩)]

/-- C5, witness: the demo initializer reads `param2` and `param3` off the
pre-populated state. -/
theorem construct_sets_stored_before_init_demo :
    (namesOf myConfigurable.registry).Nodup
    ∧ (demoInst.attrs = myConfigurableInit demoInst.attrsBeforeInit demoInst.forwarded
      ∧ ∀ p ∈ myConfigurable.registry, p.storage = Storage.stored →
          lookupKw demoInst.attrsBeforeInit p.name
            = lookupKw demoInst.snapshot p.name) :=
  ⟨by decide,
   construct_sets_stored_before_init myConfigurable myConfigurableInit
     demoKwargs demoInst (by decide) (by rfl)⟩

/-- C6: a class bound via the `configurable` decorator — including one
written as syntactically extending a config dataclass — is not a
dataclass and keeps no inheritance relationship to any schema; the
schema's parameters surface only as attributes copied onto instances at
construction. -/
theorem configurable_no_dataclass_no_inheritance (t : TargetClass)
    (explicit : List SchemaDescriptor) (hd : t.isDataclass = false)
    (hb : ∀ s ∈ schemasOf t explicit, s.name ∉ t.otherBases) :
    (configurable t explicit).isDataclass = false
    ∧ (∀ s ∈ schemasOf t explicit, s.name ∉ (configurable t explicit).bases)
    ∧ (∀ init kwargs inst,
        construct (configurable t explicit) init kwargs = Except.ok inst →
        ∀ p ∈ (configurable t explicit).registry, p.storage = Storage.stored →
          ∀ v : Value, lookupKw inst.snapshot p.name = some v →
            p.name ∈ inst.attrsBeforeInit.map (fun kv => kv.1)) := by
  refine ⟨hd, hb, ?_⟩
  intro init kwargs inst h p hp hs v hv
  obtain ⟨resolved, hok, hpre, -, -, hsnap⟩ := construct_ok h
  rw [hsnap, lookupKw_snapshotOf (mem_namesOf.mpr ⟨p, hp, rfl⟩)] at hv
  rw [hpre, storedAttrs]
  exact name_mem_specMap hp (by rw [if_pos hs, hv])

/-- C6, witness: the demo target extends `MyConfig` syntactically, yet the
bound class is no dataclass, `MyConfig` is not among its bases, and the
stored `param2` lands on the demo instance. -/
theorem configurable_no_dataclass_no_inheritance_demo :
    myConfigurableTarget.isDataclass = false
    ∧ (∀ s ∈ schemasOf myConfigurableTarget [], s.name ∉ myConfigurableTarget.otherBases)
    ∧ ((configurable myConfigurableTarget []).isDataclass = false
      ∧ (∀ s ∈ schemasOf myConfigurableTarget [],
          s.name ∉ (configurable myConfigurableTarget []).bases)
      ∧ (∀ init kwargs inst,
          construct (configurable myConfigurableTarget []) init kwargs
            = Except.ok inst →
          ∀ p ∈ (configurable myConfigurableTarget []).registry,
            p.storage = Storage.stored →
          ∀ v : Value, lookupKw inst.snapshot p.name = some v →
            p.name ∈ inst.attrsBeforeInit.map (fun kv => kv.1))) :=
  ⟨rfl, by decide,
   configurable_no_dataclass_no_inheritance myConfigurableTarget [] rfl
     (by decide)⟩

/-- C7, counterexample: the demo schemas have disjoint names, yet the
merged registry's order is not the concatenation of the two declaration
orders — `MyConfig` declares `param1, param2, param3` but the registry
(and the recorded `show_config_params` output) puts `param2` before
`param1`. -/
theorem merge_not_declaration_order_demo :
    (∀ n ∈ namesOf myConfig.params, n ∉ namesOf myConfig2.params)
    ∧ namesOf (mergeRegistry [myConfig, myConfig2])
        ≠ namesOf myConfig.params ++ namesOf myConfig2.params := by
  decide

/-- C7, amended: for two schemas with disjoint (and internally unique)
parameter names, the merged registry is the concatenation of the two
schemas' extraction orders, where each schema's extraction lists its
stored fields in declaration order followed by its transient fields in
declaration order. -/
theorem merge_disjoint_is_extraction_concat (s1 s2 : SchemaDescriptor)
    (h1 : (namesOf s1.params).Nodup) (h2 : (namesOf s2.params).Nodup)
    (hd : ∀ n ∈ namesOf s1.params, n ∉ namesOf s2.params) :
    mergeRegistry [s1, s2] = extractParams s1 ++ extractParams s2 := by
  have hp1 : (namesOf (extractParams s1)).Perm (namesOf s1.params) :=
    (extractParams_perm s1).map _
  have hp2 : (namesOf (extractParams s2)).Perm (namesOf s2.params) :=
    (extractParams_perm s2).map _
  have h1' : (namesOf (extractParams s1)).Nodup := hp1.nodup_iff.mpr h1
  have h2' : (namesOf (extractParams s2)).Nodup := hp2.nodup_iff.mpr h2
  have hd' : List.Disjoint (namesOf (extractParams s1)) (namesOf (extractParams s2)) :=
    fun n hn hn2 => hd n (hp1.mem_iff.mp hn) (hp2.mem_iff.mp hn2)
  have hcat : (namesOf (extractParams s1) ++ namesOf (extractParams s2)).Nodup :=
    h1'.append h2' hd'
  have e1 : (extractParams s1).foldl mergeInto [] = [] ++ extractParams s1 :=
    foldl_mergeInto_of_nodup (by simpa [namesOf] using h1')
  calc mergeRegistry [s1, s2]
      = (extractParams s2).foldl mergeInto ((extractParams s1).foldl mergeInto []) := rfl
    _ = (extractParams s2).foldl mergeInto (extractParams s1) := by
        rw [e1, List.nil_append]
    _ = extractParams s1 ++ extractParams s2 := foldl_mergeInto_of_nodup hcat

/-- C7, witness: the amended statement on the two demo schemas. -/
theorem merge_disjoint_is_extraction_concat_demo :
    mergeRegistry [myConfig, myConfig2]
      = extractParams myConfig ++ extractParams myConfig2 :=
  merge_disjoint_is_extraction_concat myConfig myConfig2
    (by decide) (by decide) (by decide)

/-- C8: when the checked merge accepts a sequence whose last schema
redeclares a name already present in the registry merged from the earlier
schemas (the later schema declaring it exactly once, as a dataclass
must — a redeclaration changing `storage` or prematurely turning a stored
field derived is instead rejected with `SchemaConflict` at merge time),
the merged result keeps the name at its first-occurrence position — its
index among the names is unchanged, the earlier names staying a prefix of
the merged names — and the entry becomes the earlier entry with
`defaultKind` (together with its derivation sources), `description` and
`origin` replaced by the later declaration's values. -/
theorem merge_override_in_place (earlier : List SchemaDescriptor)
    (later : SchemaDescriptor) (n : String) (q : ParameterSpec)
    (reg' : List ParameterSpec)
    (hok : mergeRegistryChecked (earlier ++ [later]) = Except.ok reg')
    (hn : n ∈ namesOf (mergeRegistry earlier))
    (hq : (extractParams later).filter (fun p => p.name = n) = [q]) :
    (namesOf reg').findIdx (fun m => m = n)
        = (namesOf (mergeRegistry earlier)).findIdx (fun m => m = n)
    ∧ ∃ p, findSpec (mergeRegistry earlier) n = some p
        ∧ findSpec reg' n = some (overrideWith q p) := by
  have hfold : reg'
      = (extractParams later).foldl mergeInto (mergeRegistry earlier) := by
    rw [mergeRegistryChecked_ok hok, mergeRegistry, mergeRegistry,
      List.foldl_append]
    rfl
  constructor
  · obtain ⟨rest, hnames⟩ :=
      namesOf_foldl_mergeInto (extractParams later) (mergeRegistry earlier)
    rw [hfold, hnames, findIdx_append_of_mem hn]
  · obtain ⟨p, hp⟩ := findSpec_mem_names hn
    refine ⟨p, hp, ?_⟩
    rw [hfold, findSpec_foldl_mergeInto_override hn hq, hp]
    rfl

/-- A hypothetical later schema overriding the demo's `param2` default,
used to exercise the override-in-place rule. -/
def param2Override : ParameterSpec :=
  { name := "param2", declaredType := "str",
    defaultKind := .literal (Value.vStr "other"), storage := .stored,
    description := "Parameter 2, overridden.", origin := "MyConfigOverride" }

/-- A schema redeclaring `param2` with a new default and description. -/
def myConfigOverride : SchemaDescriptor :=
  { name := "MyConfigOverride"
    params := [param2Override]
    hook := { sources := [], compute := fun _ => [] } }

/-- C8, witness: the checked merge accepts the override schema after
`MyConfig` (same storage, not derived), keeps `param2` in first position
and swaps in the new default/description. -/
theorem merge_override_in_place_demo :
    (namesOf (mergeRegistry ([myConfig] ++ [myConfigOverride]))).findIdx
        (fun m => m = "param2")
      = (namesOf (mergeRegistry [myConfig])).findIdx (fun m => m = "param2")
    ∧ ∃ p, findSpec (mergeRegistry [myConfig]) "param2" = some p
        ∧ findSpec (mergeRegistry ([myConfig] ++ [myConfigOverride])) "param2"
            = some (overrideWith param2Override p) :=
  merge_override_in_place [myConfig] myConfigOverride "param2" param2Override
    (mergeRegistry ([myConfig] ++ [myConfigOverride]))
    (by rfl) (by decide) (by decide)

/-- C10: binding the same config in any of the three supported forms —
extending the config dataclass, passing it via the decorator's `config`
parameter, or nesting it inside the target — yields identical class-level
registries, observable as identical `show_config_params` output. -/
theorem bind_three_forms_equal (base : TargetClass) (c : SchemaDescriptor)
    (hb : base.configBases = []) (hi : base.innerConfigs = []) :
    (configurable { base with configBases := [c] } []).registry
        = (configurable base [c]).registry
    ∧ (configurable { base with innerConfigs := [c] } []).registry
        = (configurable base [c]).registry
    ∧ showConfigParamsType (configurable { base with configBases := [c] } [])
        = showConfigParamsType (configurable base [c])
    ∧ showConfigParamsType (configurable { base with innerConfigs := [c] } [])
        = showConfigParamsType (configurable base [c]) := by
  have hs1 : schemasOf { base with configBases := [c] } [] = [c] := by
    simp [schemasOf, hi]
  have hs2 : schemasOf base [c] = [c] := by simp [schemasOf]
  have hs3 : schemasOf { base with innerConfigs := [c] } [] = [c] := by
    simp [schemasOf, hb]
  refine ⟨?_, ?_, ?_, ?_⟩ <;>
    simp [configurable, showConfigParamsType, hs1, hs2, hs3]

/-- The demo target written without any attached config, used to exercise
the three binding forms. -/
def plainTarget : TargetClass :=
  { name := "MyConfigurable", configBases := [], otherBases := [],
    innerConfigs := [], isDataclass := false }

/-- C10, witness: the three binding forms agree on the demo config. -/
theorem bind_three_forms_equal_demo :
    (configurable { plainTarget with configBases := [myConfig] } []).registry
        = (configurable plainTarget [myConfig]).registry
    ∧ (configurable { plainTarget with innerConfigs := [myConfig] } []).registry
        = (configurable plainTarget [myConfig]).registry
    ∧ showConfigParamsType (configurable { plainTarget with configBases := [myConfig] } [])
        = showConfigParamsType (configurable plainTarget [myConfig])
    ∧ showConfigParamsType (configurable { plainTarget with innerConfigs := [myConfig] } [])
        = showConfigParamsType (configurable plainTarget [myConfig]) :=
  bind_three_forms_equal plainTarget myConfig rfl rfl

end Dataconfigs
